import Mathlib

/-!
Verification of the yt-most-replayed retrieval-and-normalization pipeline.

The TypeScript source is shallowly embedded: JavaScript numbers that can
become `NaN` through `parseInt` are modelled as `Option Int` (`none` = NaN),
JSON-borne floats (`intensityScoreNormalized`) as `ℚ`, fallible functions as
`Except MostReplayedError`, and the asynchronous network as an explicit
oracle giving the outcome of each attempt.  `Array.prototype.sort`
(guaranteed stable by ECMAScript for consistent comparators) is modelled by
a structural stable insertion sort.
-/

namespace YtMostReplayed

/-- Error codes, from src/types.ts `MostReplayedErrorCode`. -/
inductive MostReplayedErrorCode where
  | INVALID_VIDEO_ID
  | FETCH_FAILED
  | PARSE_FAILED
  | NO_DATA_AVAILABLE
  | TIMEOUT
deriving DecidableEq, Repr

/-- Error value, from src/types.ts `MostReplayedError` (code and message). -/
structure MostReplayedError where
  code : MostReplayedErrorCode
  message : String
deriving DecidableEq, Repr

/-! ### Transport (src/client.ts `fetchVideoPage`) -/

/-- Outcome of one `fetchFn` attempt, as observed by the retry loop in
`fetchVideoPage`: an HTTP response, an abort by the timeout signal
(`AbortError`), or a thrown network error. -/
inductive AttemptOutcome where
  | response (status : Nat) (statusText : String) (body : String)
  | abortTimeout
  | netError (msg : String)

/-- From src/client.ts: `status >= 500 || status === 429`. -/
def isRetryableStatus (status : Nat) : Bool :=
  500 ≤ status || status == 429

/-- Message of the FetchFailed error built for a non-2xx response:
`HTTP ${response.status}: ${response.statusText}`. -/
def httpMsg (status : Nat) (statusText : String) : String :=
  "HTTP " ++ toString status ++ ": " ++ statusText

/-- Message of the TimedOut error:
`Request timed out after ${timeout}ms`. -/
def timeoutMsg (timeout : Nat) : String :=
  "Request timed out after " ++ toString timeout ++ "ms"

/-- Message of the FetchFailed error built for a thrown network error:
`Failed to fetch video page: ${...}`. -/
def netErrMsg (msg : String) : String :=
  "Failed to fetch video page: " ++ msg

/-- The retry loop of `fetchVideoPage` (src/client.ts lines 101-165).
`script n` is the outcome of attempt number `n`; `attempt` is the current
attempt number; `remaining` is the number of attempts still allowed
including the current one (`maxRetries + 1 - attempt` for the loop
`for (attempt = 1; attempt <= maxRetries; attempt++)`), so the loop guard
`attempt <= maxRetries` is `remaining > 0` and `attempt < maxRetries` is
`remaining > 1`.  Returns the result together with the number of attempts
actually issued from this point on. -/
def fetchGo (script : Nat → AttemptOutcome) (timeout : Nat) :
    (attempt : Nat) → (lastError : Option MostReplayedError) →
    (remaining : Nat) → Except MostReplayedError String × Nat
  | _, lastError, 0 =>
    (match lastError with
     | some e => .error e
     | none => .error ⟨.FETCH_FAILED, "Request failed"⟩, 0)
  | attempt, _, remaining + 1 =>
    match script attempt with
    | .response st tx bd =>
      if 200 ≤ st ∧ st < 300 then
        (.ok bd, 1)
      else
        if isRetryableStatus st ∧ remaining ≠ 0 then
          let r := fetchGo script timeout (attempt + 1)
            (some ⟨.FETCH_FAILED, httpMsg st tx⟩) remaining
          (r.1, r.2 + 1)
        else
          (.error ⟨.FETCH_FAILED, httpMsg st tx⟩, 1)
    | .abortTimeout =>
      (.error ⟨.TIMEOUT, timeoutMsg timeout⟩, 1)
    | .netError m =>
      if remaining ≠ 0 then
        let r := fetchGo script timeout (attempt + 1)
          (some ⟨.FETCH_FAILED, netErrMsg m⟩) remaining
        (r.1, r.2 + 1)
      else
        (.error ⟨.FETCH_FAILED, netErrMsg m⟩, 1)

/-- `fetchVideoPage` as a function of the attempt script, the timeout value
(used only in the TimedOut message) and `maxRetries`; yields the final
result and the total number of attempts issued. -/
def fetchVideoPage (script : Nat → AttemptOutcome) (timeout maxRetries : Nat) :
    Except MostReplayedError String × Nat :=
  fetchGo script timeout 1 none maxRetries

/-! ### JavaScript number/string primitives used by the parser -/

/-- ASCII whitespace recognized by `parseInt` / `String.prototype.trim`
(the Unicode space classes do not occur in this data). -/
def jsIsWhitespace (c : Char) : Bool :=
  c = ' ' || c = '\t' || c = '\n' || c = '\r' || c = Char.ofNat 11 || c = Char.ofNat 12

def isDecDigit (c : Char) : Bool :=
  '0' ≤ c && c ≤ '9'

def digitsToNat (l : List Char) : Nat :=
  l.foldl (fun a c => a * 10 + (c.toNat - '0'.toNat)) 0

/-- Longest leading run of decimal digits; `none` when there is none. -/
def parseDigits (l : List Char) : Option Nat :=
  let ds := l.takeWhile isDecDigit
  if ds.isEmpty then none else some (digitsToNat ds)

/-- JavaScript `parseInt(s, 10)`: skip whitespace, optional sign, then the
longest digit run (trailing garbage ignored); `none` models the `NaN`
result when no digit is found. -/
def jsParseInt (s : String) : Option Int :=
  match s.data.dropWhile jsIsWhitespace with
  | '-' :: rest => (parseDigits rest).map (fun n => -(n : Int))
  | '+' :: rest => (parseDigits rest).map (fun n => (n : Int))
  | l => (parseDigits l).map (fun n => (n : Int))

/-- JavaScript number addition where `none` models `NaN` (NaN propagates). -/
def optAdd (a b : Option Int) : Option Int :=
  match a, b with
  | some x, some y => some (x + y)
  | _, _ => none

/-- The value of the comparator `a - b` as consumed by `Array.prototype.sort`:
a `NaN` comparator result is treated as `0` by the sort algorithm. -/
def jsCompareNum (a b : Option Int) : Int :=
  match a, b with
  | some x, some y => x - y
  | _, _ => 0

/-! ### Data model (src/types.ts and the raw shapes in src/parser.ts) -/

/-- Raw heatmap marker as found in the JSON payload (`RawMarker`): string
numerals, every field optional. -/
structure RawMarker where
  startMillis : Option String
  durationMillis : Option String
  intensityScoreNormalized : Option ℚ
deriving DecidableEq, Repr

/-- Normalized marker (`HeatmapMarker`): `startMillis`/`durationMillis` are
`parseInt` results, hence possibly NaN (`none`). -/
structure HeatmapMarker where
  startMillis : Option Int
  durationMillis : Option Int
  intensityScoreNormalized : ℚ
deriving DecidableEq, Repr

/-- Raw timed marker decoration (`RawTimedMarkerDecoration`). -/
structure RawTimedMarkerDecoration where
  visibleTimeRangeStartMillis : Option String
  visibleTimeRangeEndMillis : Option String
deriving DecidableEq, Repr

/-- Normalized timed marker decoration (`TimedMarkerDecoration`). -/
structure TimedMarkerDecoration where
  visibleTimeRangeStartMillis : Option Int
  visibleTimeRangeEndMillis : Option Int
deriving DecidableEq, Repr

/-! ### Stable sort, modelling `Array.prototype.sort`

ECMAScript guarantees a stable sort for consistent comparators, and any two
stable sorts agree there; `stableSort` below is the structural insertion
sort model. -/

def stInsert (le : α → α → Bool) (a : α) : List α → List α
  | [] => [a]
  | b :: bs => if le a b then a :: b :: bs else b :: stInsert le a bs

def stableSort (le : α → α → Bool) : List α → List α
  | [] => []
  | a :: as => stInsert le a (stableSort le as)

/-- Comparator `(a, b) => a.startMillis - b.startMillis` from
`transformMarkers`, as a `Bool` "a may come before b" relation. -/
def markerLE (a b : HeatmapMarker) : Bool :=
  decide (jsCompareNum a.startMillis b.startMillis ≤ 0)

/-- Field conversion in `transformMarkers`' `.map` step:
`parseInt(startMillis, 10)`, `durationMillis ? parseInt(durationMillis, 10) : 0`
(so the falsy empty string also yields 0), `intensityScoreNormalized ?? 0`. -/
def convertMarker (m : RawMarker) : HeatmapMarker where
  startMillis := jsParseInt (m.startMillis.getD "")
  durationMillis :=
    match m.durationMillis with
    | none => some 0
    | some s => if s = "" then some 0 else jsParseInt s
  intensityScoreNormalized := m.intensityScoreNormalized.getD 0

/-- `transformMarkers` (src/parser.ts): keep entries whose `startMillis` is
defined, convert fields, sort by parsed start time. -/
def transformMarkers (rawMarkers : List RawMarker) : List HeatmapMarker :=
  stableSort markerLE
    ((rawMarkers.filter (fun m => m.startMillis.isSome)).map convertMarker)

/-- Comparator of `transformTimedMarkerDecorations`' sort. -/
def decorationLE (a b : TimedMarkerDecoration) : Bool :=
  decide (jsCompareNum a.visibleTimeRangeStartMillis b.visibleTimeRangeStartMillis ≤ 0)

/-- `transformTimedMarkerDecorations` (src/parser.ts): keep entries with both
bounds defined, `parseInt` both, sort ascending by start bound. -/
def transformTimedMarkerDecorations
    (rawDecorations : List RawTimedMarkerDecoration) : List TimedMarkerDecoration :=
  stableSort decorationLE
    ((rawDecorations.filter (fun d =>
        d.visibleTimeRangeStartMillis.isSome && d.visibleTimeRangeEndMillis.isSome)).map
      (fun d =>
        ⟨jsParseInt (d.visibleTimeRangeStartMillis.getD ""),
         jsParseInt (d.visibleTimeRangeEndMillis.getD "")⟩))

/-- Accumulator step of `findPeakSegment`'s `reduce`:
`current.intensityScoreNormalized > peak.intensityScoreNormalized ? current : peak`. -/
def peakStep (peak current : HeatmapMarker) : HeatmapMarker :=
  if peak.intensityScoreNormalized < current.intensityScoreNormalized then current else peak

/-- `findPeakSegment` (src/parser.ts): `reduce` without initial value keeps
the first element with strictly greatest intensity; `none` for `[]`. -/
def findPeakSegment : List HeatmapMarker → Option HeatmapMarker
  | [] => none
  | m :: ms => some (ms.foldl peakStep m)

/-- `calculateAverageIntensity` (src/parser.ts); 0 for empty input. -/
def calculateAverageIntensity (markers : List HeatmapMarker) : ℚ :=
  if markers.isEmpty then 0
  else (markers.foldl (fun acc m => acc + m.intensityScoreNormalized) 0) / markers.length

/-- The `segmentDuration` computed by `estimateVideoDuration`:
`lastRawMarker?.durationMillis ? parseInt(lastRawMarker.durationMillis, 10) : 0`
(missing last entry, missing duration field, or falsy empty string → 0). -/
def lastRawSegmentDuration (rawMarkers : List RawMarker) : Option Int :=
  match rawMarkers.getLast? with
  | none => some 0
  | some r =>
    match r.durationMillis with
    | none => some 0
    | some s => if s = "" then some 0 else jsParseInt s

/-- `estimateVideoDuration` (src/parser.ts): 0 for no markers, otherwise the
last normalized marker's start plus the raw last entry's segment duration. -/
def estimateVideoDuration (markers : List HeatmapMarker)
    (rawMarkers : List RawMarker) : Option Int :=
  match markers.getLast? with
  | none => some 0
  | some lastMarker => optAdd lastMarker.startMillis (lastRawSegmentDuration rawMarkers)

/-! ### The marker transform (claims C4, C5, C8) -/

/-- The parsed start time of a normalized marker, with NaN read as 0 — on
markers whose start parsed successfully this is exactly the parsed value. -/
def startKey (m : HeatmapMarker) : Int :=
  m.startMillis.getD 0

/-- Total-preorder version of the sort comparator, agreeing with `markerLE`
on markers with non-NaN start times. -/
def markerKeyLE (a b : HeatmapMarker) : Bool :=
  decide (startKey a ≤ startKey b)

/-- Conversion of one raw entry as described by the (amended) C4 claim:
entries lacking a start time are discarded; start is `parseInt`-parsed
base 10; a falsy duration (absent or empty string) defaults to 0, otherwise
the duration is `parseInt`-parsed; absent intensity defaults to 0. -/
def specMarkerOf (m : RawMarker) : Option HeatmapMarker :=
  match m.startMillis with
  | none => none
  | some s =>
    some ⟨jsParseInt s,
      (match m.durationMillis with
       | none => some 0
       | some t => if t = "" then some 0 else jsParseInt t),
      m.intensityScoreNormalized.getD 0⟩

/-- Start field of a raw entry parses to a non-NaN integer (or is absent). -/
def startParses (m : RawMarker) : Bool :=
  match m.startMillis with
  | none => true
  | some s => (jsParseInt s).isSome

/-- Segment duration of the last raw entry as described by the (amended) C5
claim: absent last entry, absent duration field, or falsy empty string
contribute 0, any other string is `parseInt`-parsed base 10.  Phrased over
the reversed sequence ("the last raw entry"). -/
def lastRawSegmentDurationSpec (rawMarkers : List RawMarker) : Option Int :=
  match rawMarkers.reverse with
  | [] => some 0
  | r :: _ =>
    match r.durationMillis with
    | none => some 0
    | some s => if s = "" then some 0 else jsParseInt s

/-- Duration estimate as described by the (amended) C5 claim: 0 for an empty
normalized sequence, otherwise the last normalized marker's start time plus
the last raw entry's segment duration (taken from the raw sequence, even if
that entry was filtered out of the normalized one). -/
def estimateVideoDurationSpec (markers : List HeatmapMarker)
    (rawMarkers : List RawMarker) : Option Int :=
  match markers.reverse with
  | [] => some 0
  | lastMarker :: _ => optAdd lastMarker.startMillis (lastRawSegmentDurationSpec rawMarkers)

/-! ### The deserialized tree and the locator (claim C6) -/

/-- The `markersDecoration` node of a markers list. -/
structure MarkersDecoration where
  timedMarkerDecorations : Option (List RawTimedMarkerDecoration)
deriving DecidableEq, Repr

/-- The `markersList` node (`MarkersListData` in src/parser.ts). -/
structure MarkersListData where
  markers : Option (List RawMarker)
  markersDecoration : Option MarkersDecoration
deriving DecidableEq, Repr

structure MacroMarkersListEntity where
  markersList : Option MarkersListData
deriving DecidableEq, Repr

structure MutationPayload where
  macroMarkersListEntity : Option MacroMarkersListEntity
deriving DecidableEq, Repr

/-- One entry of the `mutations` sequence. -/
structure Mutation where
  payload : Option MutationPayload
deriving DecidableEq, Repr

/-- The `mutations` field value: the code guards with `Array.isArray`, so a
present value may be an array of mutations or something that is not an
array. -/
inductive MutationsField where
  | arr (mutations : List Mutation)
  | notArray
deriving DecidableEq, Repr

structure EntityBatchUpdate where
  mutations : Option MutationsField
deriving DecidableEq, Repr

structure FrameworkUpdates where
  entityBatchUpdate : Option EntityBatchUpdate
deriving DecidableEq, Repr

/-- The deserialized tree (`YouTubeInitialData` in src/parser.ts), with
every field along the walked path optional. -/
structure YouTubeInitialData where
  frameworkUpdates : Option FrameworkUpdates
deriving DecidableEq, Repr

/-- The optional chain `mutation.payload?.macroMarkersListEntity?.markersList`. -/
def mutationMarkersList (m : Mutation) : Option MarkersListData :=
  match m.payload with
  | none => none
  | some p =>
    match p.macroMarkersListEntity with
    | none => none
    | some e => e.markersList

/-- The loop of `findMarkersListData`: return the first `markersList` whose
`markersDecoration` is present (`if (markersList?.markersDecoration)`). -/
def findInMutations : List Mutation → Option MarkersListData
  | [] => none
  | m :: rest =>
    match mutationMarkersList m with
    | some ml => if ml.markersDecoration.isSome then some ml else findInMutations rest
    | none => findInMutations rest

/-- `findMarkersListData` (src/parser.ts): walk
`frameworkUpdates?.entityBatchUpdate?.mutations`, require an array, then
scan the mutations in order. -/
def findMarkersListData (data : YouTubeInitialData) : Option MarkersListData :=
  match data.frameworkUpdates with
  | none => none
  | some fu =>
    match fu.entityBatchUpdate with
    | none => none
    | some ebu =>
      match ebu.mutations with
      | none => none
      | some .notArray => none
      | some (.arr ms) => findInMutations ms

/-- A mutation qualifies when its markers list is present with a present
`markersDecoration`. -/
def qualifies (m : Mutation) : Prop :=
  ∃ ml, mutationMarkersList m = some ml ∧ ml.markersDecoration.isSome

/-! ### The extractor (claim C7) -/

/-- The pattern occurs in `s` at position `i` (substring check, the
match content of `String.prototype.indexOf`). -/
def occursAt (pat s : List Char) (i : Nat) : Prop :=
  (s.drop i).take pat.length = pat

/-- Boolean form of `occursAt`. -/
def matchAt (pat s : List Char) (i : Nat) : Bool :=
  decide ((s.drop i).take pat.length = pat)

/-- Forward scan of `String.prototype.indexOf`, with explicit fuel. -/
def findFromGo (pat s : List Char) : Nat → Nat → Option Nat
  | _, 0 => none
  | i, fuel + 1 => if matchAt pat s i then some i else findFromGo pat s (i + 1) fuel

/-- `s.indexOf(pat, start)`: the first position `≥ start` where `pat`
occurs, `none` when there is none. -/
def findFrom (pat s : List Char) (start : Nat) : Option Nat :=
  findFromGo pat s start (s.length + 1 - start)

/-- The opening anchor `var ytInitialData = `. -/
def ytMarker : String := "var ytInitialData = "

/-- The closing anchor `;</script>`. -/
def ytTerminator : String := ";</script>"

/-- `extractInitialDataJson` (src/parser.ts): find the first occurrence of
the marker, then the first occurrence of the terminator at or after the
payload start, and return `html.slice(jsonStart, endIndex)`. -/
def extractInitialDataJson (html : String) : Except MostReplayedError String :=
  match findFrom ytMarker.data html.data 0 with
  | none => .error ⟨.PARSE_FAILED, "Could not find ytInitialData in page HTML"⟩
  | some startIndex =>
    let jsonStart := startIndex + ytMarker.data.length
    match findFrom ytTerminator.data html.data jsonStart with
    | none => .error ⟨.PARSE_FAILED, "Could not find end of ytInitialData JSON"⟩
    | some endIndex => .ok ⟨(html.data.drop jsonStart).take (endIndex - jsonStart)⟩

/-! ### Single-item result assembly (claim C10) -/

/-- `MostReplayedData` (src/types.ts). -/
structure MostReplayedData where
  markers : List HeatmapMarker
  timedMarkerDecorations : Option (List TimedMarkerDecoration)
  videoDurationMillis : Option Int
  peakSegment : Option HeatmapMarker
  averageIntensity : ℚ
deriving DecidableEq, Repr

/-- The result-assembly part of `getMostReplayed` (src/client.ts lines
203-227), as a function of the deserialized tree: the leading validation,
fetch, extraction and JSON-deserialization steps either throw or produce
this tree, and every null-versus-summary decision happens from here on. -/
def getMostReplayed (initialData : YouTubeInitialData) : Option MostReplayedData :=
  match findMarkersListData initialData with
  | none => none
  | some markersListData =>
    match markersListData.markers with
    | none => none
    | some rawMarkers =>
      if rawMarkers.isEmpty then none
      else
        let markers := transformMarkers rawMarkers
        if markers.isEmpty then none
        else
          let timedMarkerDecorations : Option (List TimedMarkerDecoration) :=
            match markersListData.markersDecoration with
            | some dec =>
              match dec.timedMarkerDecorations with
              | some rds => some (transformTimedMarkerDecorations rds)
              | none => none
            | none => none
          some {
            markers := markers
            timedMarkerDecorations :=
              match timedMarkerDecorations with
              | some l => if 0 < l.length then some l else none
              | none => none
            videoDurationMillis := estimateVideoDuration markers rawMarkers
            peakSegment := findPeakSegment markers
            averageIntensity := calculateAverageIntensity markers }

/-- Concrete tree for the C10 witness: one mutation whose markers list has
one raw marker and an empty decorations list. -/
def c10Data : YouTubeInitialData :=
  ⟨some ⟨some ⟨some (.arr
    [⟨some ⟨some ⟨some ⟨some [⟨some "1000", some "5000", some 1⟩], some ⟨some []⟩⟩⟩⟩⟩])⟩⟩⟩

/-- The summary the pipeline produces on `c10Data`. -/
def c10Result : MostReplayedData :=
  (getMostReplayed c10Data).getD ⟨[], none, none, none, 0⟩

/-! ### Video-id validation and the batch orchestrator (claims C2, C9) -/

/-- Character class `[a-zA-Z0-9_-]` of the video-id regular expressions. -/
def isVideoIdChar (c : Char) : Bool :=
  ('a' ≤ c && c ≤ 'z') || ('A' ≤ c && c ≤ 'Z') || ('0' ≤ c && c ≤ '9')
    || c = '_' || c = '-'

/-- `isValidVideoId` (src/client.ts): `/^[a-zA-Z0-9_-]{11}$/`. -/
def isValidVideoId (videoId : String) : Bool :=
  videoId.data.length == 11 && videoId.data.all isVideoIdChar

/-- The URL prefixes of the extraction regular expression's alternation. -/
def urlPrefixes : List (List Char) :=
  ["youtube.com/watch?v=".data, "youtube.com/embed/".data, "youtu.be/".data,
   "youtube.com/v/".data, "youtube.com/shorts/".data]

/-- Regex match attempt at one position: some alternative matches here and
is followed by 11 id characters (the capture). -/
def captureAt (s : List Char) (i : Nat) : Option (List Char) :=
  urlPrefixes.findSome? (fun p =>
    if matchAt p s i then
      let cand := (s.drop (i + p.length)).take 11
      if cand.length == 11 && cand.all isVideoIdChar then some cand else none
    else none)

/-- Leftmost-match scan of the URL regular expression, with explicit fuel. -/
def findUrlIdGo (s : List Char) : Nat → Nat → Option (List Char)
  | _, 0 => none
  | i, fuel + 1 =>
    match captureAt s i with
    | some vid => some vid
    | none => findUrlIdGo s (i + 1) fuel

/-- `trimmed.match(pattern)` capture group: the leftmost position where one
of the URL prefixes is followed by an 11-character id. -/
def findUrlId (s : List Char) : Option (List Char) :=
  findUrlIdGo s 0 (s.length + 1)

/-- `String.prototype.trim`. -/
def jsTrim (s : List Char) : List Char :=
  ((s.dropWhile jsIsWhitespace).reverse.dropWhile jsIsWhitespace).reverse

/-- Message `Invalid YouTube video ID or URL: "${input}"`. -/
def invalidIdMsg (input : String) : String :=
  "Invalid YouTube video ID or URL: \"" ++ input ++ "\""

/-- `extractVideoId` (src/client.ts): trim, accept a bare valid id, else try
the URL patterns, else throw `INVALID_VIDEO_ID`. -/
def extractVideoId (input : String) : Except MostReplayedError String :=
  let trimmed := jsTrim input.data
  if isValidVideoId ⟨trimmed⟩ then .ok ⟨trimmed⟩
  else
    match findUrlId trimmed with
    | some vid => .ok ⟨vid⟩
    | none => .error ⟨.INVALID_VIDEO_ID, invalidIdMsg input⟩

/-- `BatchResult` (src/types.ts). -/
structure BatchResult where
  videoId : String
  data : Option MostReplayedData
  error : Option MostReplayedError
deriving DecidableEq, Repr

/-- One entry of the `videoIds` array built by `getMostReplayedBatch`'s
validation map. -/
structure ValidatedInput where
  original : String
  videoId : Option String
  error : Option MostReplayedError
deriving DecidableEq, Repr

/-- `extractVideoId` wrapped in the batch's try/catch. -/
def videoIdEntry (input : String) : ValidatedInput :=
  match extractVideoId input with
  | .ok v => ⟨input, some v, none⟩
  | .error e => ⟨input, none, some e⟩

/-- One entry of `validItems`: the original input, the extracted id, and
the original index. -/
structure ValidItem where
  original : String
  videoId : String
  index : Nat
deriving DecidableEq, Repr

/-- Phase 1 of the batch: write an immediate `BatchResult` (keyed by the
ORIGINAL input) into the slot of every input whose validation failed. -/
def fillErrors : List (Option BatchResult) → Nat → List ValidatedInput →
    List (Option BatchResult)
  | acc, _, [] => acc
  | acc, k, e :: rest =>
    fillErrors
      (match e.error with
       | some err => acc.set k (some ⟨e.original, none, some err⟩)
       | none => acc)
      (k + 1) rest

/-- The `validItems` array: inputs with a successfully extracted id,
together with their original indices, in input order. -/
def collectValid : Nat → List ValidatedInput → List ValidItem
  | _, [] => []
  | k, e :: rest =>
    match e.videoId with
    | some v => ⟨e.original, v, k⟩ :: collectValid (k + 1) rest
    | none => collectValid (k + 1) rest

/-- Chunking of the concurrency window, with explicit fuel. -/
def chunksOfGo (c : Nat) : Nat → List α → List (List α)
  | 0, _ => []
  | _ + 1, [] => []
  | fuel + 1, a :: l => (a :: l).take c :: chunksOfGo c fuel ((a :: l).drop c)

/-- `for (let i = 0; i < validItems.length; i += concurrency)` slicing.
With `concurrency = 0` the source loop never terminates; the model is only
stated (and the claims only proved) for a positive concurrency. -/
def chunksOf (c : Nat) (l : List α) : List (List α) :=
  if c = 0 then [] else chunksOfGo c l.length l

/-- The settled promise of one valid item: `getMostReplayed(item.videoId)`
either resolves with data or rejects with a `MostReplayedError`; the
`runItem` oracle gives that outcome per (original index, video id).  The
result is keyed by the EXTRACTED video id in both branches. -/
def runResult (runItem : Nat → String → Except MostReplayedError (Option MostReplayedData))
    (it : ValidItem) : BatchResult :=
  match runItem it.index it.videoId with
  | .ok d => ⟨it.videoId, d, none⟩
  | .error e => ⟨it.videoId, none, some e⟩

/-- `getMostReplayedBatch` (src/client.ts): validate all inputs, pre-size
the result array (`none` = hole), write validation failures immediately,
then process the valid items in concurrency-sized chunks, writing every
settled result at the item's original index.  The network/pipeline outcome
of each item is supplied by the pure oracle `runItem`. -/
def getMostReplayedBatch (inputs : List String) (concurrency : Nat)
    (runItem : Nat → String → Except MostReplayedError (Option MostReplayedData)) :
    List (Option BatchResult) :=
  let videoIds := inputs.map videoIdEntry
  let results1 := fillErrors (List.replicate inputs.length none) 0 videoIds
  (chunksOf concurrency (collectValid 0 videoIds)).foldl
    (fun acc chunk =>
      (chunk.map (fun it => (it.index, runResult runItem it))).foldl
        (fun a r => a.set r.1 (some r.2)) acc)
    results1

/-- Per-item reference behaviour: what slot `i` must hold, as a function of
input `i` alone (validation failure keyed by the original input and fetched
items keyed by the extracted id). -/
def expectedItemResult
    (runItem : Nat → String → Except MostReplayedError (Option MostReplayedData))
    (i : Nat) (input : String) : BatchResult :=
  match extractVideoId input with
  | .error e => ⟨input, none, some e⟩
  | .ok v =>
    match runItem i v with
    | .ok d => ⟨v, d, none⟩
    | .error e => ⟨v, none, some e⟩

/-- The key the C2 claim talks about: what the result's `videoId` field
actually carries for input `input`. -/
def keyOf (input : String) : String :=
  match extractVideoId input with
  | .ok v => v
  | .error _ => input

/-- One result-array write of the chunk-processing phase. -/
def writeItem (runItem : Nat → String → Except MostReplayedError (Option MostReplayedData))
    (acc : List (Option BatchResult)) (it : ValidItem) : List (Option BatchResult) :=
  acc.set it.index (some (runResult runItem it))

/-- The markers list located in the C6 witness tree. -/
def c6Ml : MarkersListData := ⟨some [⟨some "1", none, none⟩], some ⟨none⟩⟩

/-- A mutation whose markers list lacks the `markersDecoration` key. -/
def c6MutNo : Mutation := ⟨some ⟨some ⟨some ⟨some [], none⟩⟩⟩⟩

/-- A mutation whose markers list carries `markersDecoration`. -/
def c6MutYes : Mutation := ⟨some ⟨some ⟨some c6Ml⟩⟩⟩

/-- Concrete tree for the C6 witness: the first mutation does not qualify,
the second does. -/
def c6Data : YouTubeInitialData :=
  ⟨some ⟨some ⟨some (.arr [c6MutNo, c6MutYes])⟩⟩⟩

/-- Characterization of `isRetryableStatus` as a proposition. -/
theorem isRetryableStatus_iff (st : Nat) :
    isRetryableStatus st = true ↔ (500 ≤ st ∨ st = 429) := by
  simp [isRetryableStatus, Nat.le_iff_lt_or_eq]

/-- C1 (counterexample): with a budget of `maxRetries = 2`, an abort by the
timeout signal on attempt 1 (budget not exhausted, `1 < 2`) is NOT silently
retried: the call surfaces `TimedOut` right away after exactly one attempt,
contradicting the claim that timeout aborts are retried and `TimedOut` is
surfaced only on the final attempt of the budget. -/
theorem c1_timeout_cex :
    fetchVideoPage (fun _ => .abortTimeout) 1000 2
      = (.error ⟨.TIMEOUT, timeoutMsg 1000⟩, 1) ∧ (1 : Nat) < 2 := by
  constructor
  · rfl
  · decide

/-- C1 (amended): whenever the timeout signal aborts an attempt that the
loop actually issues (any attempt with at least one try remaining in the
budget), `fetchVideoPage` surfaces `TimedOut` immediately after that single
attempt, regardless of how much retry budget remains; timeout aborts are
never retried. -/
theorem c1_timeout_immediate (script : Nat → AttemptOutcome)
    (timeout attempt r : Nat) (lastErr : Option MostReplayedError)
    (h : script attempt = .abortTimeout) :
    fetchGo script timeout attempt lastErr (r + 1)
      = (.error ⟨.TIMEOUT, timeoutMsg timeout⟩, 1) := by
  simp [fetchGo, h]

/-- C1 (witness): the amended theorem applied at a concrete script that
aborts on attempt 1 with two attempts of budget remaining. -/
theorem c1_timeout_immediate_witness :
    (fun _ => AttemptOutcome.abortTimeout) 1 = AttemptOutcome.abortTimeout ∧
    fetchGo (fun _ => AttemptOutcome.abortTimeout) 500 1 none (1 + 1)
      = (.error ⟨.TIMEOUT, timeoutMsg 500⟩, 1) :=
  ⟨rfl, c1_timeout_immediate (fun _ => .abortTimeout) 500 1 1 none rfl⟩

/-- C3: for an attempt that receives a non-2xx HTTP response: if the status
is not retryable (neither ≥ 500 nor 429), the loop is terminal immediately
with a `FetchFailed` error carrying the status and makes zero further
attempts; if the status is retryable and budget remains, the attempt is
silently retried (the result is exactly that of the continuation from the
next attempt, with one more attempt counted); if the status is retryable
but this was the final attempt of the budget, `FetchFailed` carrying the
status is surfaced after this single attempt. -/
theorem c3_non2xx_retry_policy (script : Nat → AttemptOutcome)
    (timeout attempt r st : Nat) (tx bd : String)
    (lastErr : Option MostReplayedError)
    (hs : script attempt = .response st tx bd)
    (hok : ¬(200 ≤ st ∧ st < 300)) :
    (¬(500 ≤ st ∨ st = 429) →
      fetchGo script timeout attempt lastErr (r + 1)
        = (.error ⟨.FETCH_FAILED, httpMsg st tx⟩, 1)) ∧
    ((500 ≤ st ∨ st = 429) → r ≠ 0 →
      fetchGo script timeout attempt lastErr (r + 1)
        = ((fetchGo script timeout (attempt + 1)
              (some ⟨.FETCH_FAILED, httpMsg st tx⟩) r).1,
           (fetchGo script timeout (attempt + 1)
              (some ⟨.FETCH_FAILED, httpMsg st tx⟩) r).2 + 1)) ∧
    ((500 ≤ st ∨ st = 429) → r = 0 →
      fetchGo script timeout attempt lastErr (r + 1)
        = (.error ⟨.FETCH_FAILED, httpMsg st tx⟩, 1)) := by
  refine ⟨fun hnr => ?_, fun hr hr0 => ?_, fun hr hr0 => ?_⟩
  · have : isRetryableStatus st = false := by
      rw [← Bool.not_eq_true, isRetryableStatus_iff]; exact hnr
    simp [fetchGo, hs, hok, this]
  · have : isRetryableStatus st = true := (isRetryableStatus_iff st).mpr hr
    simp [fetchGo, hs, hok, this, hr0]
  · subst hr0
    simp [fetchGo, hs, hok]

/-- C3 (witness): a 404 response on attempt 1 with budget 2 is terminal
immediately, with `FetchFailed` carrying the status and one attempt made. -/
theorem c3_non2xx_retry_policy_witness :
    (fun _ => AttemptOutcome.response 404 "Not Found" "") 1
        = AttemptOutcome.response 404 "Not Found" "" ∧
    ¬(200 ≤ 404 ∧ 404 < 300) ∧
    fetchGo (fun _ => AttemptOutcome.response 404 "Not Found" "") 1000 1 none (1 + 1)
      = (.error ⟨.FETCH_FAILED, httpMsg 404 "Not Found"⟩, 1) :=
  ⟨rfl, by decide,
    (c3_non2xx_retry_policy (fun _ => .response 404 "Not Found" "") 1000 1 1 404
      "Not Found" "" none rfl (by decide)).1 (by decide)⟩

/-! ### Generic facts about the stable sort model -/

theorem stInsert_perm (le : α → α → Bool) (a : α) (l : List α) :
    List.Perm (stInsert le a l) (a :: l) := by
  induction l with
  | nil => exact List.Perm.refl _
  | cons b bs ih =>
    by_cases h : le a b
    · simp [stInsert, h]
    · simpa [stInsert, h] using (ih.cons b).trans (List.Perm.swap a b bs)

theorem mem_stInsert (le : α → α → Bool) (a x : α) (l : List α) :
    x ∈ stInsert le a l ↔ x = a ∨ x ∈ l := by
  rw [(stInsert_perm le a l).mem_iff, List.mem_cons]

theorem stableSort_perm (le : α → α → Bool) (l : List α) :
    List.Perm (stableSort le l) l := by
  induction l with
  | nil => exact List.Perm.refl _
  | cons a as ih => exact (stInsert_perm le a (stableSort le as)).trans (ih.cons a)

theorem stInsert_congr (le le' : α → α → Bool) (a : α) (l : List α)
    (hag : ∀ x, (x = a ∨ x ∈ l) → ∀ y, (y = a ∨ y ∈ l) → le x y = le' x y) :
    stInsert le a l = stInsert le' a l := by
  induction l with
  | nil => rfl
  | cons b bs ih =>
    have hab : le a b = le' a b := hag a (Or.inl rfl) b (Or.inr (List.mem_cons_self b bs))
    have ih' : stInsert le a bs = stInsert le' a bs :=
      ih (fun x hx y hy =>
        hag x (hx.imp id (fun h => List.mem_cons_of_mem b h))
          y (hy.imp id (fun h => List.mem_cons_of_mem b h)))
    simp only [stInsert, hab, ih']

theorem stableSort_congr (le le' : α → α → Bool) (l : List α)
    (hag : ∀ x ∈ l, ∀ y ∈ l, le x y = le' x y) :
    stableSort le l = stableSort le' l := by
  induction l with
  | nil => rfl
  | cons a as ih =>
    have ih' : stableSort le as = stableSort le' as :=
      ih (fun x hx y hy =>
        hag x (List.mem_cons_of_mem a hx) y (List.mem_cons_of_mem a hy))
    have hmem : ∀ x ∈ stableSort le' as, x ∈ as :=
      fun x hx => (stableSort_perm le' as).mem_iff.mp hx
    simp only [stableSort, ih']
    refine stInsert_congr le le' a (stableSort le' as) (fun x hx y hy => ?_)
    have hx' : x ∈ a :: as := by
      rcases hx.imp id (hmem x) with h | h
      · rw [h]; exact List.mem_cons_self a as
      · exact List.mem_cons_of_mem a h
    have hy' : y ∈ a :: as := by
      rcases hy.imp id (hmem y) with h | h
      · rw [h]; exact List.mem_cons_self a as
      · exact List.mem_cons_of_mem a h
    exact hag x hx' y hy'

theorem stInsert_sorted (f : α → Int) (a : α) (l : List α)
    (h : l.Pairwise (fun x y => f x ≤ f y)) :
    (stInsert (fun x y => decide (f x ≤ f y)) a l).Pairwise (fun x y => f x ≤ f y) := by
  induction l with
  | nil => simp [stInsert]
  | cons b bs ih =>
    rw [List.pairwise_cons] at h
    obtain ⟨hb, hbs⟩ := h
    by_cases hab : f a ≤ f b
    · simp only [stInsert, decide_eq_true hab, if_true]
      refine List.Pairwise.cons ?_ (List.Pairwise.cons hb hbs)
      intro y hy
      rcases List.mem_cons.mp hy with rfl | hy
      · exact hab
      · exact le_trans hab (hb y hy)
    · simp only [stInsert, decide_eq_false hab, Bool.false_eq_true, if_false]
      refine List.Pairwise.cons ?_ (ih hbs)
      intro y hy
      rcases (mem_stInsert _ a y bs).mp hy with rfl | hy
      · exact le_of_not_le hab
      · exact hb y hy

theorem stableSort_sorted (f : α → Int) (l : List α) :
    (stableSort (fun x y => decide (f x ≤ f y)) l).Pairwise (fun x y => f x ≤ f y) := by
  induction l with
  | nil => simp [stableSort]
  | cons a as ih => exact stInsert_sorted f a _ ih

theorem stInsert_filter (f : α → Int) (v : Int) (a : α) (l : List α) :
    (stInsert (fun x y => decide (f x ≤ f y)) a l).filter (fun m => decide (f m = v))
      = if f a = v then a :: l.filter (fun m => decide (f m = v))
        else l.filter (fun m => decide (f m = v)) := by
  induction l with
  | nil =>
    by_cases hv : f a = v <;> simp [stInsert, List.filter_cons, hv]
  | cons b bs ih =>
    rw [stInsert]
    by_cases hab : f a ≤ f b
    · rw [if_pos (decide_eq_true hab), List.filter_cons]
      by_cases hv : f a = v
      · rw [if_pos (by simp [hv]), if_pos hv]
      · rw [if_neg (by simp [hv]), if_neg hv]
    · rw [if_neg (by simp [hab]), List.filter_cons]
      by_cases hv : f a = v
      · have hbv : f b ≠ v := fun hb => hab (by rw [hv, hb])
        rw [if_neg (by simp [hbv]), ih, if_pos hv, if_pos hv, List.filter_cons,
          if_neg (by simp [hbv])]
      · rw [ih, if_neg hv, if_neg hv, List.filter_cons]

theorem stableSort_filter (f : α → Int) (v : Int) (l : List α) :
    (stableSort (fun x y => decide (f x ≤ f y)) l).filter (fun m => decide (f m = v))
      = l.filter (fun m => decide (f m = v)) := by
  induction l with
  | nil => rfl
  | cons a as ih =>
    rw [stableSort, stInsert_filter, ih, List.filter_cons]
    by_cases hv : f a = v <;> simp [hv]

theorem markerLE_eq_keyLE {a b : HeatmapMarker}
    (ha : a.startMillis.isSome) (hb : b.startMillis.isSome) :
    markerLE a b = markerKeyLE a b := by
  obtain ⟨x, hx⟩ := Option.isSome_iff_exists.mp ha
  obtain ⟨y, hy⟩ := Option.isSome_iff_exists.mp hb
  simp only [markerLE, markerKeyLE, jsCompareNum, startKey, hx, hy, Option.getD_some]
  rw [decide_eq_decide]
  exact sub_nonpos

theorem filter_map_eq_filterMap (raw : List RawMarker) :
    (raw.filter (fun m => m.startMillis.isSome)).map convertMarker
      = raw.filterMap specMarkerOf := by
  induction raw with
  | nil => rfl
  | cons r rs ih =>
    cases hr : r.startMillis with
    | none =>
      rw [List.filter_cons, List.filterMap_cons]
      simp only [hr, Option.isSome_none, Bool.false_eq_true, if_false, specMarkerOf, ih]
    | some s =>
      rw [List.filter_cons, List.filterMap_cons]
      simp only [hr, Option.isSome_some, if_true, List.map_cons, specMarkerOf, ih,
        convertMarker, Option.getD_some]

/-- C4 (counterexample): a present but empty-string duration is not parsed
as a base-10 integer (which would give NaN): the falsy check maps it to 0.
The kept entry `{startMillis: "0", durationMillis: ""}` comes out with
`durationMillis = 0` although `parseInt("", 10)` is NaN. -/
theorem c4_duration_cex :
    (transformMarkers [⟨some "0", some "", none⟩]).map (fun m => m.durationMillis)
        = [some 0]
      ∧ jsParseInt "" = none ∧ (some 0 : Option Int) ≠ none := by
  exact ⟨rfl, rfl, by decide⟩

/-- C4 (amended): for raw sequences whose present start-time fields parse to
integers, `transformMarkers` keeps exactly the entries with a present start
time, converts fields as in the claim except that a falsy duration (absent
OR empty string) defaults to 0, and returns them sorted ascending by parsed
start time with ties keeping encounter order (stable sort): the output is a
permutation of the converted kept entries, pairwise sorted by parsed start,
and for every start value the output lists the tied entries exactly in their
encounter order. -/
theorem c4_transformMarkers_spec (raw : List RawMarker)
    (h : raw.all startParses = true) :
    List.Perm (transformMarkers raw) (raw.filterMap specMarkerOf)
    ∧ (transformMarkers raw).Pairwise
        (fun a b => ∀ x y, a.startMillis = some x → b.startMillis = some y → x ≤ y)
    ∧ ∀ v : Int,
        (transformMarkers raw).filter (fun m => decide (startKey m = v))
          = (raw.filterMap specMarkerOf).filter (fun m => decide (startKey m = v)) := by
  have hmap : (raw.filter (fun m => m.startMillis.isSome)).map convertMarker
      = raw.filterMap specMarkerOf := filter_map_eq_filterMap raw
  have hsome : ∀ m ∈ (raw.filter (fun m => m.startMillis.isSome)).map convertMarker,
      m.startMillis.isSome := by
    intro m hm
    obtain ⟨r, hr, hconv⟩ := List.mem_map.mp hm
    obtain ⟨hrm, hrs⟩ := List.mem_filter.mp hr
    obtain ⟨s, hs⟩ := Option.isSome_iff_exists.mp hrs
    have hparse : (jsParseInt s).isSome := by
      have := List.all_eq_true.mp h r hrm
      simpa [startParses, hs] using this
    rw [← hconv]
    simpa [convertMarker, hs] using hparse
  have hcongr : transformMarkers raw
      = stableSort markerKeyLE ((raw.filter (fun m => m.startMillis.isSome)).map convertMarker) := by
    rw [transformMarkers]
    exact stableSort_congr _ _ _
      (fun x hx y hy => markerLE_eq_keyLE (hsome x hx) (hsome y hy))
  refine ⟨?_, ?_, ?_⟩
  · rw [hcongr, ← hmap]
    exact stableSort_perm _ _
  · rw [hcongr]
    have hs := stableSort_sorted startKey
      ((raw.filter (fun m => m.startMillis.isSome)).map convertMarker)
    refine List.Pairwise.imp ?_ hs
    intro a b hab x y hx hy
    simpa [startKey, hx, hy] using hab
  · intro v
    rw [hcongr, ← hmap]
    exact stableSort_filter startKey v _

/-- C4 (witness): the amended theorem at a concrete raw list containing a
start-time tie, a dropped entry without start time, an absent duration and
an empty-string duration. -/
theorem c4_transformMarkers_spec_witness :
    ([(⟨some "5", none, some 1⟩ : RawMarker), ⟨some "3", some "7", none⟩,
        ⟨none, some "9", some 2⟩, ⟨some "3", some "", some 3⟩].all startParses = true)
    ∧ (List.Perm
        (transformMarkers [⟨some "5", none, some 1⟩, ⟨some "3", some "7", none⟩,
          ⟨none, some "9", some 2⟩, ⟨some "3", some "", some 3⟩])
        ([(⟨some "5", none, some 1⟩ : RawMarker), ⟨some "3", some "7", none⟩,
          ⟨none, some "9", some 2⟩, ⟨some "3", some "", some 3⟩].filterMap specMarkerOf)
      ∧ (transformMarkers [⟨some "5", none, some 1⟩, ⟨some "3", some "7", none⟩,
          ⟨none, some "9", some 2⟩, ⟨some "3", some "", some 3⟩]).Pairwise
          (fun a b => ∀ x y, a.startMillis = some x → b.startMillis = some y → x ≤ y)
      ∧ ∀ v : Int,
          (transformMarkers [⟨some "5", none, some 1⟩, ⟨some "3", some "7", none⟩,
            ⟨none, some "9", some 2⟩, ⟨some "3", some "", some 3⟩]).filter
              (fun m => decide (startKey m = v))
            = ([(⟨some "5", none, some 1⟩ : RawMarker), ⟨some "3", some "7", none⟩,
                ⟨none, some "9", some 2⟩, ⟨some "3", some "", some 3⟩].filterMap
                specMarkerOf).filter (fun m => decide (startKey m = v))) :=
  ⟨by decide,
    c4_transformMarkers_spec
      [⟨some "5", none, some 1⟩, ⟨some "3", some "7", none⟩,
        ⟨none, some "9", some 2⟩, ⟨some "3", some "", some 3⟩] (by decide)⟩

/-- C5 (counterexample): the claim computes the estimate as the last
normalized marker's start plus the base-10 parse of the last raw entry's
duration; with a present but empty-string duration that parse is NaN, yet
the code falls back to 0 and returns `5 + 0`, not NaN. -/
theorem c5_duration_cex :
    estimateVideoDuration [⟨some 5, some 0, 0⟩] [⟨some "5", some "", none⟩] = some 5
    ∧ jsParseInt "" = none
    ∧ optAdd (some 5) (jsParseInt "")
        ≠ estimateVideoDuration [⟨some 5, some 0, 0⟩] [⟨some "5", some "", none⟩] := by
  exact ⟨rfl, rfl, by decide⟩

/-- C5 (amended): the duration estimate equals the last normalized marker's
start time plus the last raw entry's duration, where the duration is parsed
base 10 unless it is falsy (absent entry, absent field, or empty string), in
which case it contributes 0; the estimate is 0 when the normalized marker
sequence is empty. -/
theorem c5_estimateVideoDuration_spec (markers : List HeatmapMarker)
    (rawMarkers : List RawMarker) :
    estimateVideoDuration markers rawMarkers
      = estimateVideoDurationSpec markers rawMarkers := by
  rw [estimateVideoDuration, estimateVideoDurationSpec, List.getLast?_eq_head?_reverse]
  cases markers.reverse with
  | nil => rfl
  | cons lastMarker rest =>
    simp only [List.head?_cons]
    rw [lastRawSegmentDuration, lastRawSegmentDurationSpec,
      List.getLast?_eq_head?_reverse]
    cases rawMarkers.reverse with
    | nil => rfl
    | cons r rest' => rfl

/-! ### Peak selection (claim C8) -/

theorem foldPeak_spec (ms : List HeatmapMarker) : ∀ acc : HeatmapMarker,
    (∀ m ∈ ms, m.intensityScoreNormalized
        ≤ (ms.foldl peakStep acc).intensityScoreNormalized)
    ∧ acc.intensityScoreNormalized ≤ (ms.foldl peakStep acc).intensityScoreNormalized
    ∧ (ms.foldl peakStep acc = acc ∨
        ∃ pre x suf, ms = pre ++ x :: suf ∧ ms.foldl peakStep acc = x ∧
          acc.intensityScoreNormalized < x.intensityScoreNormalized ∧
          ∀ m ∈ pre, m.intensityScoreNormalized < x.intensityScoreNormalized) := by
  induction ms with
  | nil => intro acc; simp
  | cons c rest ih =>
    intro acc
    obtain ⟨ih1, ih2, ih3⟩ := ih (peakStep acc c)
    have hfold : (c :: rest).foldl peakStep acc = rest.foldl peakStep (peakStep acc c) :=
      rfl
    by_cases h : acc.intensityScoreNormalized < c.intensityScoreNormalized
    · have hps : peakStep acc c = c := by simp [peakStep, h]
      rw [hps] at ih1 ih2 ih3
      rw [hfold, hps]
      refine ⟨?_, ?_, ?_⟩
      · intro m hm
        rcases List.mem_cons.mp hm with rfl | hm
        · exact ih2
        · exact ih1 m hm
      · exact le_trans (le_of_lt h) ih2
      · rcases ih3 with heq | ⟨pre, x, suf, hdec, hres, hlt, hpre⟩
        · exact Or.inr ⟨[], c, rest, rfl, heq, h, by simp⟩
        · refine Or.inr ⟨c :: pre, x, suf, by simp [hdec], hres, lt_trans h hlt, ?_⟩
          intro m hm
          rcases List.mem_cons.mp hm with rfl | hm
          · exact hlt
          · exact hpre m hm
    · have hps : peakStep acc c = acc := by simp [peakStep, h]
      rw [hps] at ih1 ih2 ih3
      rw [hfold, hps]
      refine ⟨?_, ?_, ?_⟩
      · intro m hm
        rcases List.mem_cons.mp hm with rfl | hm
        · exact le_trans (le_of_not_lt h) ih2
        · exact ih1 m hm
      · exact ih2
      · rcases ih3 with heq | ⟨pre, x, suf, hdec, hres, hlt, hpre⟩
        · exact Or.inl heq
        · refine Or.inr ⟨c :: pre, x, suf, by simp [hdec], hres, hlt, ?_⟩
          intro m hm
          rcases List.mem_cons.mp hm with rfl | hm
          · exact lt_of_le_of_lt (le_of_not_lt h) hlt
          · exact hpre m hm

/-- C8: peak selection returns `none` exactly for the empty sequence, and on
a non-empty sequence it returns a marker of the sequence whose intensity is
greater than or equal to every marker's intensity, which is moreover the
earliest-encountered of the tied maxima: every marker before it in the
sequence has strictly smaller intensity. -/
theorem c8_findPeakSegment_spec (l : List HeatmapMarker) :
    (findPeakSegment l = none ↔ l = []) ∧
    ∀ p, findPeakSegment l = some p →
      p ∈ l
      ∧ (∀ m ∈ l, m.intensityScoreNormalized ≤ p.intensityScoreNormalized)
      ∧ ∃ pre suf, l = pre ++ p :: suf ∧
          ∀ m ∈ pre, m.intensityScoreNormalized < p.intensityScoreNormalized := by
  cases l with
  | nil => simp [findPeakSegment]
  | cons m ms =>
    refine ⟨by simp [findPeakSegment], ?_⟩
    intro p hp
    obtain ⟨h1, h2, h3⟩ := foldPeak_spec ms m
    have hp' : ms.foldl peakStep m = p := by
      simpa [findPeakSegment] using hp
    rw [hp'] at h1 h2 h3
    refine ⟨?_, ?_, ?_⟩
    · rcases h3 with heq | ⟨pre, x, suf, hdec, hres, _, _⟩
      · rw [heq]; exact List.mem_cons_self m ms
      · rw [hres, hdec]
        exact List.mem_cons_of_mem m (List.mem_append_right pre (List.mem_cons_self x suf))
    · intro x hx
      rcases List.mem_cons.mp hx with rfl | hx
      · exact h2
      · exact h1 x hx
    · rcases h3 with heq | ⟨pre, x, suf, hdec, hres, hlt, hpre⟩
      · exact ⟨[], ms, by simp [heq], by simp⟩
      · subst hres
        refine ⟨m :: pre, suf, by simp [hdec], ?_⟩
        intro y hy
        rcases List.mem_cons.mp hy with rfl | hy
        · exact hlt
        · exact hpre y hy

/-- C8 (witness): the theorem applied to a concrete sequence with a tie: the
peak is the first of the two markers with maximal intensity 2. -/
theorem c8_findPeakSegment_spec_witness :
    findPeakSegment [⟨some 0, some 0, 1⟩, ⟨some 1000, some 0, 2⟩, ⟨some 2000, some 0, 2⟩]
        = some ⟨some 1000, some 0, 2⟩
    ∧ ((⟨some 1000, some 0, 2⟩ : HeatmapMarker)
          ∈ [(⟨some 0, some 0, 1⟩ : HeatmapMarker), ⟨some 1000, some 0, 2⟩,
              ⟨some 2000, some 0, 2⟩]
      ∧ (∀ m ∈ [(⟨some 0, some 0, 1⟩ : HeatmapMarker), ⟨some 1000, some 0, 2⟩,
              ⟨some 2000, some 0, 2⟩],
          m.intensityScoreNormalized
            ≤ (⟨some 1000, some 0, 2⟩ : HeatmapMarker).intensityScoreNormalized)
      ∧ ∃ pre suf,
          [(⟨some 0, some 0, 1⟩ : HeatmapMarker), ⟨some 1000, some 0, 2⟩,
              ⟨some 2000, some 0, 2⟩] = pre ++ (⟨some 1000, some 0, 2⟩ : HeatmapMarker) :: suf
          ∧ ∀ m ∈ pre, m.intensityScoreNormalized
              < (⟨some 1000, some 0, 2⟩ : HeatmapMarker).intensityScoreNormalized) :=
  ⟨by decide,
    (c8_findPeakSegment_spec
      [⟨some 0, some 0, 1⟩, ⟨some 1000, some 0, 2⟩, ⟨some 2000, some 0, 2⟩]).2
      ⟨some 1000, some 0, 2⟩ (by decide)⟩

theorem findInMutations_eq_some (ms : List Mutation) (ml : MarkersListData) :
    findInMutations ms = some ml ↔
      ∃ pre suf mu, ms = pre ++ mu :: suf ∧ mutationMarkersList mu = some ml ∧
        ml.markersDecoration.isSome = true ∧ ∀ m ∈ pre, ¬qualifies m := by
  induction ms with
  | nil =>
    simp only [findInMutations]
    constructor
    · intro h; exact absurd h (by simp)
    · rintro ⟨pre, suf, mu, hdec, -⟩
      exact absurd hdec.symm (by simp)
  | cons m rest ih =>
    have hsplit : ∀ pre suf (mu : Mutation), m :: rest = pre ++ mu :: suf ↔
        (pre = [] ∧ mu :: suf = m :: rest) ∨
        (∃ pre', pre = m :: pre' ∧ rest = pre' ++ mu :: suf) := by
      intro pre suf mu
      exact List.cons_eq_append_iff
    cases hm : mutationMarkersList m with
    | none =>
      have hnq : ¬qualifies m := by
        rintro ⟨ml', hml', -⟩
        rw [hm] at hml'
        exact absurd hml' (by simp)
      rw [findInMutations, hm, ih]
      constructor
      · rintro ⟨pre, suf, mu, hdec, h1, h2, h3⟩
        refine ⟨m :: pre, suf, mu, by rw [hdec, List.cons_append], h1, h2, ?_⟩
        intro x hx
        rcases List.mem_cons.mp hx with rfl | hx
        · exact hnq
        · exact h3 x hx
      · rintro ⟨pre, suf, mu, hdec, h1, h2, h3⟩
        rcases (hsplit pre suf mu).mp hdec with ⟨hpre, heq⟩ | ⟨pre', hpre, hrest⟩
        · obtain ⟨rfl, rfl⟩ : mu = m ∧ suf = rest := by
            have := List.cons.injEq mu suf m rest ▸ heq
            exact ⟨by injection heq, by injection heq⟩
          rw [hm] at h1
          exact absurd h1 (by simp)
        · refine ⟨pre', suf, mu, hrest, h1, h2, ?_⟩
          intro x hx
          exact h3 x (hpre ▸ List.mem_cons_of_mem m hx)
    | some ml' =>
      by_cases hq : ml'.markersDecoration.isSome
      · simp only [findInMutations, hm, hq, if_true]
        constructor
        · intro h
          obtain rfl : ml' = ml := by injection h
          exact ⟨[], rest, m, rfl, hm, hq, by simp⟩
        · rintro ⟨pre, suf, mu, hdec, h1, h2, h3⟩
          rcases (hsplit pre suf mu).mp hdec with ⟨hpre, heq⟩ | ⟨pre', hpre, hrest⟩
          · obtain ⟨rfl, rfl⟩ : mu = m ∧ suf = rest :=
              ⟨by injection heq, by injection heq⟩
            rw [hm] at h1
            obtain rfl : ml' = ml := by injection h1
            rfl
          · exfalso
            refine h3 m ?_ ⟨ml', hm, hq⟩
            rw [hpre]
            exact List.mem_cons_self m pre'
      · have hnq : ¬qualifies m := by
          rintro ⟨ml'', hml'', hq''⟩
          rw [hm] at hml''
          obtain rfl : ml' = ml'' := by injection hml''
          exact hq hq''
        simp only [findInMutations, hm, hq, Bool.false_eq_true, if_false, ih]
        constructor
        · rintro ⟨pre, suf, mu, hdec, h1, h2, h3⟩
          refine ⟨m :: pre, suf, mu, by rw [hdec, List.cons_append], h1, h2, ?_⟩
          intro x hx
          rcases List.mem_cons.mp hx with rfl | hx
          · exact hnq
          · exact h3 x hx
        · rintro ⟨pre, suf, mu, hdec, h1, h2, h3⟩
          rcases (hsplit pre suf mu).mp hdec with ⟨hpre, heq⟩ | ⟨pre', hpre, hrest⟩
          · obtain ⟨rfl, rfl⟩ : mu = m ∧ suf = rest :=
              ⟨by injection heq, by injection heq⟩
            rw [hm] at h1
            obtain rfl : ml' = ml := by injection h1
            exact absurd h2 hq
          · refine ⟨pre', suf, mu, hrest, h1, h2, ?_⟩
            intro x hx
            exact h3 x (hpre ▸ List.mem_cons_of_mem m hx)

/-- C6: the locator returns some markers list iff the fixed path
`frameworkUpdates → entityBatchUpdate → mutations` is fully present with an
array value and that list is the `markersList` of the first mutation (in
mutation order) whose `markersDecoration` key is present; and it returns
"not found" (`none`, not an error) exactly when an intermediate key is
missing, the mutations value is not an array, or no mutation qualifies
(which subsumes an empty mutations sequence). -/
theorem c6_findMarkersListData_spec (d : YouTubeInitialData) :
    (∀ ml, findMarkersListData d = some ml ↔
      ∃ fu ebu ms, d.frameworkUpdates = some fu
        ∧ fu.entityBatchUpdate = some ebu
        ∧ ebu.mutations = some (.arr ms)
        ∧ ∃ pre suf mu, ms = pre ++ mu :: suf
            ∧ mutationMarkersList mu = some ml
            ∧ ml.markersDecoration.isSome = true
            ∧ ∀ m ∈ pre, ¬qualifies m)
    ∧ (findMarkersListData d = none ↔
        d.frameworkUpdates = none
        ∨ (∃ fu, d.frameworkUpdates = some fu ∧ fu.entityBatchUpdate = none)
        ∨ (∃ fu ebu, d.frameworkUpdates = some fu ∧ fu.entityBatchUpdate = some ebu
            ∧ ebu.mutations = none)
        ∨ (∃ fu ebu, d.frameworkUpdates = some fu ∧ fu.entityBatchUpdate = some ebu
            ∧ ebu.mutations = some .notArray)
        ∨ (∃ fu ebu ms, d.frameworkUpdates = some fu ∧ fu.entityBatchUpdate = some ebu
            ∧ ebu.mutations = some (.arr ms) ∧ ∀ m ∈ ms, ¬qualifies m)) := by
  have hnone : ∀ ms : List Mutation,
      findInMutations ms = none ↔ ∀ m ∈ ms, ¬qualifies m := by
    intro ms
    induction ms with
    | nil => simp [findInMutations]
    | cons m rest ih =>
      cases hm : mutationMarkersList m with
      | none =>
        have hnq : ¬qualifies m := by
          rintro ⟨ml', hml', -⟩
          rw [hm] at hml'
          exact absurd hml' (by simp)
        simp only [findInMutations, hm, ih]
        constructor
        · intro h x hx
          rcases List.mem_cons.mp hx with rfl | hx
          · exact hnq
          · exact h x hx
        · intro h x hx
          exact h x (List.mem_cons_of_mem m hx)
      | some ml' =>
        by_cases hq : ml'.markersDecoration.isSome
        · simp only [findInMutations, hm, hq, if_true]
          constructor
          · intro h; exact absurd h (by simp)
          · intro h
            exact absurd ⟨ml', hm, hq⟩ (h m (List.mem_cons_self m rest))
        · have hnq : ¬qualifies m := by
            rintro ⟨ml'', hml'', hq''⟩
            rw [hm] at hml''
            obtain rfl : ml' = ml'' := by injection hml''
            exact hq hq''
          simp only [findInMutations, hm, hq, Bool.false_eq_true, if_false, ih]
          constructor
          · intro h x hx
            rcases List.mem_cons.mp hx with rfl | hx
            · exact hnq
            · exact h x hx
          · intro h x hx
            exact h x (List.mem_cons_of_mem m hx)
  cases hfu : d.frameworkUpdates with
  | none =>
    refine ⟨fun ml => ?_, ?_⟩
    · simp [findMarkersListData, hfu]
    · simp [findMarkersListData, hfu]
  | some fu =>
    cases hebu : fu.entityBatchUpdate with
    | none =>
      refine ⟨fun ml => ?_, ?_⟩
      · simp [findMarkersListData, hfu, hebu]
      · simp [findMarkersListData, hfu, hebu]
    | some ebu =>
      cases hmut : ebu.mutations with
      | none =>
        refine ⟨fun ml => ?_, ?_⟩
        · simp [findMarkersListData, hfu, hebu, hmut]
        · simp [findMarkersListData, hfu, hebu, hmut]
      | some mf =>
        cases mf with
        | notArray =>
          refine ⟨fun ml => ?_, ?_⟩
          · simp [findMarkersListData, hfu, hebu, hmut]
          · simp [findMarkersListData, hfu, hebu, hmut]
        | arr ms =>
          have hfind : findMarkersListData d = findInMutations ms := by
            simp [findMarkersListData, hfu, hebu, hmut]
          refine ⟨fun ml => ?_, ?_⟩
          · rw [hfind, findInMutations_eq_some]
            constructor
            · intro h
              exact ⟨fu, ebu, ms, rfl, hebu, hmut, h⟩
            · rintro ⟨fu', ebu', ms', hfu', hebu', hmut', h⟩
              obtain rfl : fu = fu' := by injection hfu'
              rw [hebu] at hebu'
              obtain rfl : ebu = ebu' := by injection hebu'
              rw [hmut] at hmut'
              obtain rfl : ms = ms' := by
                injection hmut' with h'
                injection h'
              exact h
          · rw [hfind, hnone]
            constructor
            · intro h
              exact Or.inr (Or.inr (Or.inr (Or.inr ⟨fu, ebu, ms, rfl, hebu, hmut, h⟩)))
            · rintro (h | ⟨fu', hfu', h⟩ | ⟨fu', ebu', hfu', hebu', h⟩ |
                ⟨fu', ebu', hfu', hebu', h⟩ | ⟨fu', ebu', ms', hfu', hebu', hmut', h⟩)
              · exact absurd h (by simp)
              · obtain rfl : fu = fu' := by injection hfu'
                rw [hebu] at h; exact absurd h (by simp)
              · obtain rfl : fu = fu' := by injection hfu'
                rw [hebu] at hebu'
                obtain rfl : ebu = ebu' := by injection hebu'
                rw [hmut] at h; exact absurd h (by simp)
              · obtain rfl : fu = fu' := by injection hfu'
                rw [hebu] at hebu'
                obtain rfl : ebu = ebu' := by injection hebu'
                rw [hmut] at h
                injection h with h'
                exact absurd h' (by simp)
              · obtain rfl : fu = fu' := by injection hfu'
                rw [hebu] at hebu'
                obtain rfl : ebu = ebu' := by injection hebu'
                rw [hmut] at hmut'
                obtain rfl : ms = ms' := by
                  injection hmut' with h'
                  injection h'
                exact h

theorem matchAt_iff (pat s : List Char) (i : Nat) :
    matchAt pat s i = true ↔ occursAt pat s i := by
  simp [matchAt, occursAt]

theorem occursAt_lt_length (pat s : List Char) (i : Nat)
    (h : occursAt pat s i) (hne : pat ≠ []) : i < s.length := by
  by_contra hge
  rw [occursAt, List.drop_eq_nil_of_le (Nat.le_of_not_lt hge), List.take_nil] at h
  exact hne h.symm

theorem findFromGo_eq_some (pat s : List Char) : ∀ (fuel i k : Nat),
    findFromGo pat s i fuel = some k ↔
      i ≤ k ∧ k < i + fuel ∧ occursAt pat s k ∧
        ∀ j, i ≤ j → j < k → ¬occursAt pat s j := by
  intro fuel
  induction fuel with
  | zero =>
    intro i k
    simp only [findFromGo]
    constructor
    · intro h; exact absurd h (by simp)
    · rintro ⟨h1, h2, -⟩; omega
  | succ fuel ih =>
    intro i k
    rw [findFromGo]
    by_cases hm : matchAt pat s i = true
    · rw [if_pos hm]
      constructor
      · intro h
        obtain rfl : i = k := by injection h
        exact ⟨Nat.le_refl i, by omega, (matchAt_iff pat s i).mp hm, fun j h1 h2 => by omega⟩
      · rintro ⟨h1, h2, h3, h4⟩
        rcases Nat.eq_or_lt_of_le h1 with rfl | hlt
        · rfl
        · exact absurd ((matchAt_iff pat s i).mp hm) (h4 i (Nat.le_refl i) hlt)
    · rw [if_neg hm, ih (i + 1) k]
      have hno : ¬occursAt pat s i := fun h => hm ((matchAt_iff pat s i).mpr h)
      constructor
      · rintro ⟨h1, h2, h3, h4⟩
        refine ⟨by omega, by omega, h3, fun j hj1 hj2 => ?_⟩
        rcases Nat.eq_or_lt_of_le hj1 with rfl | hlt
        · exact hno
        · exact h4 j hlt hj2
      · rintro ⟨h1, h2, h3, h4⟩
        have hik : i ≠ k := fun h => hno (h ▸ h3)
        refine ⟨by omega, by omega, h3, fun j hj1 hj2 => h4 j (by omega) hj2⟩

theorem findFromGo_eq_none (pat s : List Char) : ∀ (fuel i : Nat),
    findFromGo pat s i fuel = none ↔
      ∀ j, i ≤ j → j < i + fuel → ¬occursAt pat s j := by
  intro fuel
  induction fuel with
  | zero =>
    intro i
    simp only [findFromGo]
    constructor
    · intro _ j h1 h2; omega
    · intro _; trivial
  | succ fuel ih =>
    intro i
    rw [findFromGo]
    by_cases hm : matchAt pat s i = true
    · rw [if_pos hm]
      constructor
      · intro h; exact absurd h (by simp)
      · intro h
        exact absurd ((matchAt_iff pat s i).mp hm) (h i (Nat.le_refl i) (by omega))
    · rw [if_neg hm, ih (i + 1)]
      have hno : ¬occursAt pat s i := fun h => hm ((matchAt_iff pat s i).mpr h)
      constructor
      · intro h j hj1 hj2
        rcases Nat.eq_or_lt_of_le hj1 with rfl | hlt
        · exact hno
        · exact h j hlt (by omega)
      · intro h j hj1 hj2
        exact h j (by omega) (by omega)

theorem findFrom_eq_some (pat s : List Char) (start k : Nat) (hne : pat ≠ []) :
    findFrom pat s start = some k ↔
      start ≤ k ∧ occursAt pat s k ∧
        ∀ j, start ≤ j → j < k → ¬occursAt pat s j := by
  rw [findFrom, findFromGo_eq_some]
  constructor
  · rintro ⟨h1, h2, h3, h4⟩
    exact ⟨h1, h3, h4⟩
  · rintro ⟨h1, h2, h3⟩
    have := occursAt_lt_length pat s k h2 hne
    exact ⟨h1, by omega, h2, h3⟩

theorem findFrom_eq_none (pat s : List Char) (start : Nat) (hne : pat ≠ []) :
    findFrom pat s start = none ↔ ∀ j, start ≤ j → ¬occursAt pat s j := by
  rw [findFrom, findFromGo_eq_none]
  constructor
  · intro h j hj hocc
    have := occursAt_lt_length pat s j hocc hne
    exact h j hj (by omega) hocc
  · intro h j hj1 hj2
    exact h j hj1

theorem first_at_unique (P : Nat → Prop) (lo i k : Nat)
    (hi : lo ≤ i) (h : P i) (h' : ∀ j, lo ≤ j → j < i → ¬P j)
    (hk : lo ≤ k) (g : P k) (g' : ∀ j, lo ≤ j → j < k → ¬P j) : i = k := by
  rcases Nat.lt_trichotomy i k with hlt | heq | hgt
  · exact absurd h (g' i hi hlt)
  · exact heq
  · exact absurd g (h' k hk hgt)

/-- C7: the extractor succeeds iff the opening marker occurs and the
terminator occurs at or after the payload start; on success it returns the
exact untrimmed substring between the end of the FIRST marker occurrence
and the FIRST terminator occurrence at or after the payload start; it fails
exactly when the marker is absent or no terminator occurs after it, and
every failure carries the `ParseFailed` code. -/
theorem c7_extractInitialDataJson_spec (html : String) :
    (∀ res, extractInitialDataJson html = .ok res ↔
      ∃ i, occursAt ytMarker.data html.data i
        ∧ (∀ j, j < i → ¬occursAt ytMarker.data html.data j)
        ∧ ∃ e, i + ytMarker.data.length ≤ e
            ∧ occursAt ytTerminator.data html.data e
            ∧ (∀ j, i + ytMarker.data.length ≤ j → j < e →
                ¬occursAt ytTerminator.data html.data j)
            ∧ res.data = (html.data.drop (i + ytMarker.data.length)).take
                (e - (i + ytMarker.data.length)))
    ∧ ((∃ err, extractInitialDataJson html = .error err) ↔
        (∀ i, ¬occursAt ytMarker.data html.data i)
        ∨ ∃ i, occursAt ytMarker.data html.data i
            ∧ (∀ j, j < i → ¬occursAt ytMarker.data html.data j)
            ∧ ∀ e, i + ytMarker.data.length ≤ e →
                ¬occursAt ytTerminator.data html.data e)
    ∧ (∀ err, extractInitialDataJson html = .error err →
        err.code = .PARSE_FAILED) := by
  have hmne : ytMarker.data ≠ [] := by decide
  have htne : ytTerminator.data ≠ [] := by decide
  cases hfind : findFrom ytMarker.data html.data 0 with
  | none =>
    have hnomark : ∀ j, ¬occursAt ytMarker.data html.data j := by
      intro j
      exact (findFrom_eq_none _ _ 0 hmne).mp hfind j (Nat.zero_le j)
    refine ⟨fun res => ?_, ?_, ?_⟩
    · simp only [extractInitialDataJson, hfind]
      constructor
      · intro h; exact absurd h (by simp)
      · rintro ⟨i, hi, -⟩; exact absurd hi (hnomark i)
    · simp only [extractInitialDataJson, hfind]
      constructor
      · intro _; exact Or.inl hnomark
      · intro _; exact ⟨_, rfl⟩
    · intro err herr
      simp only [extractInitialDataJson, hfind] at herr
      obtain rfl : (⟨.PARSE_FAILED, "Could not find ytInitialData in page HTML"⟩
          : MostReplayedError) = err := by injection herr
      rfl
  | some i =>
    obtain ⟨-, hocc, hfirst⟩ := (findFrom_eq_some _ _ 0 i hmne).mp hfind
    have hfirst' : ∀ j, j < i → ¬occursAt ytMarker.data html.data j :=
      fun j hj => hfirst j (Nat.zero_le j) hj
    cases hterm : findFrom ytTerminator.data html.data (i + ytMarker.data.length) with
    | none =>
      have hnoterm : ∀ e, i + ytMarker.data.length ≤ e →
          ¬occursAt ytTerminator.data html.data e :=
        (findFrom_eq_none _ _ _ htne).mp hterm
      refine ⟨fun res => ?_, ?_, ?_⟩
      · simp only [extractInitialDataJson, hfind, hterm]
        constructor
        · intro h; exact absurd h (by simp)
        · rintro ⟨i', hi', hfirst'', e, he1, he2, -⟩
          obtain rfl : i = i' :=
            first_at_unique (occursAt ytMarker.data html.data) 0 i i'
              (Nat.zero_le i) hocc hfirst (Nat.zero_le i') hi'
              (fun j _ hj => hfirst'' j hj)
          exact absurd he2 (hnoterm e he1)
      · simp only [extractInitialDataJson, hfind, hterm]
        constructor
        · intro _
          exact Or.inr ⟨i, hocc, hfirst', hnoterm⟩
        · intro _; exact ⟨_, rfl⟩
      · intro err herr
        simp only [extractInitialDataJson, hfind, hterm] at herr
        obtain rfl : (⟨.PARSE_FAILED, "Could not find end of ytInitialData JSON"⟩
            : MostReplayedError) = err := by injection herr
        rfl
    | some e =>
      obtain ⟨he1, he2, he3⟩ := (findFrom_eq_some _ _ _ e htne).mp hterm
      refine ⟨fun res => ?_, ?_, ?_⟩
      · simp only [extractInitialDataJson, hfind, hterm]
        constructor
        · intro h
          obtain rfl : (⟨(html.data.drop (i + ytMarker.data.length)).take
              (e - (i + ytMarker.data.length))⟩ : String) = res := by injection h
          exact ⟨i, hocc, hfirst', e, he1, he2, he3, rfl⟩
        · rintro ⟨i', hi', hfirst'', e', he1', he2', he3', hres⟩
          obtain rfl : i = i' :=
            first_at_unique (occursAt ytMarker.data html.data) 0 i i'
              (Nat.zero_le i) hocc hfirst (Nat.zero_le i') hi'
              (fun j _ hj => hfirst'' j hj)
          obtain rfl : e = e' :=
            first_at_unique (occursAt ytTerminator.data html.data)
              (i + ytMarker.data.length) e e' he1 he2 he3 he1' he2' he3'
          cases res with
          | mk resData =>
            simp only at hres
            rw [hres]
      · simp only [extractInitialDataJson, hfind, hterm]
        constructor
        · rintro ⟨err, herr⟩; exact absurd herr (by simp)
        · rintro (hnomark | ⟨i', hi', hfirst'', hnoterm⟩)
          · exact absurd hocc (hnomark i)
          · obtain rfl : i = i' :=
              first_at_unique (occursAt ytMarker.data html.data) 0 i i'
                (Nat.zero_le i) hocc hfirst (Nat.zero_le i') hi'
                (fun j _ hj => hfirst'' j hj)
            exact absurd he2 (hnoterm e he1)
      · intro err herr
        simp only [extractInitialDataJson, hfind, hterm] at herr
        exact absurd herr (by simp)

/-- C7 (witness): the theorem's success direction at a concrete page whose
payload is the empty object. -/
theorem c7_extractInitialDataJson_spec_witness :
    extractInitialDataJson "<p>var ytInitialData = \x7b\x7d;</script>" = .ok "\x7b\x7d"
    ∧ ∃ i, occursAt ytMarker.data ("<p>var ytInitialData = \x7b\x7d;</script>").data i
        ∧ (∀ j, j < i →
            ¬occursAt ytMarker.data ("<p>var ytInitialData = \x7b\x7d;</script>").data j)
        ∧ ∃ e, i + ytMarker.data.length ≤ e
            ∧ occursAt ytTerminator.data ("<p>var ytInitialData = \x7b\x7d;</script>").data e
            ∧ (∀ j, i + ytMarker.data.length ≤ j → j < e →
                ¬occursAt ytTerminator.data ("<p>var ytInitialData = \x7b\x7d;</script>").data j)
            ∧ ("\x7b\x7d" : String).data
                = (("<p>var ytInitialData = \x7b\x7d;</script>").data.drop
                    (i + ytMarker.data.length)).take (e - (i + ytMarker.data.length)) :=
  ⟨rfl,
    ((c7_extractInitialDataJson_spec "<p>var ytInitialData = \x7b\x7d;</script>").1
      "\x7b\x7d").mp rfl⟩

theorem transformMarkers_eq_nil_of_no_starts (rawMarkers : List RawMarker)
    (h : ∀ m ∈ rawMarkers, m.startMillis = none) :
    transformMarkers rawMarkers = [] := by
  have hf : rawMarkers.filter (fun m => m.startMillis.isSome) = [] := by
    rw [List.filter_eq_nil_iff]
    intro m hm
    simp [h m hm]
  rw [transformMarkers, hf]
  rfl

/-- C10: whenever the result assembly returns a summary, its markers
sequence is non-empty, its peak field is present, and its decorations field
is either absent or a non-empty sequence (an empty decoration list is
coerced to absent); and it returns null whenever the locator finds nothing,
the located markers list is absent or empty, or every raw entry lacks a
start time. -/
theorem decoration_coercion_nonempty (o : Option (List TimedMarkerDecoration))
    (l : List TimedMarkerDecoration) :
    (match o with
      | some l' => if 0 < l'.length then some l' else none
      | none => none) = some l → l ≠ [] := by
  cases o with
  | none => intro h; exact absurd h (by simp)
  | some l' =>
    intro h
    have h' : (if 0 < l'.length then some l' else none) = some l := h
    by_cases hp : 0 < l'.length
    · rw [if_pos hp] at h'
      obtain rfl : l' = l := by injection h'
      intro hnil
      rw [hnil] at hp
      exact absurd hp (by simp)
    · rw [if_neg hp] at h'
      exact absurd h' (by simp)

/-- C10: whenever the result assembly returns a summary, its markers
sequence is non-empty, its peak field is present, and its decorations field
is either absent or a non-empty sequence (an empty decoration list is
coerced to absent); and it returns null whenever the locator finds nothing,
the located markers list is absent or empty, or every raw entry lacks a
start time. -/
theorem c10_getMostReplayed_spec (d : YouTubeInitialData) :
    (∀ s, getMostReplayed d = some s →
      s.markers ≠ [] ∧ s.peakSegment.isSome = true ∧
        ∀ l, s.timedMarkerDecorations = some l → l ≠ [])
    ∧ (findMarkersListData d = none → getMostReplayed d = none)
    ∧ (∀ mld, findMarkersListData d = some mld →
        ((mld.markers = none ∨ mld.markers = some []) → getMostReplayed d = none)
        ∧ (∀ rm, mld.markers = some rm →
            (∀ m ∈ rm, m.startMillis = none) → getMostReplayed d = none)) := by
  refine ⟨?_, ?_, ?_⟩
  · intro s hs
    cases hfd : findMarkersListData d with
    | none =>
      simp only [getMostReplayed, hfd] at hs
      exact absurd hs (by simp)
    | some mld =>
      cases hms : mld.markers with
      | none =>
        simp only [getMostReplayed, hfd, hms] at hs
        exact absurd hs (by simp)
      | some rm =>
        simp only [getMostReplayed, hfd, hms] at hs
        by_cases hrm : rm.isEmpty
        · rw [if_pos hrm] at hs; exact absurd hs (by simp)
        · rw [if_neg hrm] at hs
          by_cases htm : (transformMarkers rm).isEmpty
          · rw [if_pos htm] at hs; exact absurd hs (by simp)
          · rw [if_neg htm] at hs
            obtain rfl : _ = s := by injection hs
            refine ⟨?_, ?_, ?_⟩
            · show transformMarkers rm ≠ []
              intro hnil
              rw [hnil] at htm
              exact htm rfl
            · show (findPeakSegment (transformMarkers rm)).isSome = true
              rcases hne : transformMarkers rm with _ | ⟨m, ms⟩
              · rw [hne] at htm; exact absurd rfl htm
              · rfl
            · intro l hl
              exact decoration_coercion_nonempty _ l hl
  · intro h
    simp only [getMostReplayed, h]
  · intro mld hmld
    constructor
    · rintro (h | h) <;> simp [getMostReplayed, hmld, h]
    · intro rm hrm hall
      simp only [getMostReplayed, hmld, hrm]
      by_cases hrm0 : rm.isEmpty
      · rw [if_pos hrm0]
      · rw [if_neg hrm0,
          if_pos (by rw [transformMarkers_eq_nil_of_no_starts rm hall]; rfl)]

/-- C10 (witness): the theorem's summary component applied at `c10Data`,
whose assembled summary has one marker, a present peak and decorations
coerced from the empty list to absent. -/
theorem c10_getMostReplayed_spec_witness :
    getMostReplayed c10Data = some c10Result
    ∧ (c10Result.markers ≠ [] ∧ c10Result.peakSegment.isSome = true ∧
        ∀ l, c10Result.timedMarkerDecorations = some l → l ≠ []) :=
  ⟨rfl, (c10_getMostReplayed_spec c10Data).1 c10Result rfl⟩

theorem chunksOfGo_foldl {α β : Type _} (c : Nat)
    (g : β → α → β) : ∀ (fuel : Nat) (l : List α) (init : β),
    l.length ≤ fuel → c ≠ 0 →
    (chunksOfGo c fuel l).foldl (fun acc ch => ch.foldl g acc) init
      = l.foldl g init := by
  intro fuel
  induction fuel with
  | zero =>
    intro l init hlen _
    obtain rfl : l = [] := List.length_eq_zero.mp (Nat.le_zero.mp hlen)
    rfl
  | succ fuel ih =>
    intro l init hlen hc
    cases l with
    | nil => rfl
    | cons a l' =>
      show ((a :: l').take c :: chunksOfGo c fuel ((a :: l').drop c)).foldl
          (fun acc ch => ch.foldl g acc) init = _
      rw [List.foldl_cons,
        ih ((a :: l').drop c) _ (by simp only [List.length_drop]; simp at hlen ⊢; omega) hc]
      conv_rhs => rw [← List.take_append_drop c (a :: l')]
      rw [List.foldl_append]

theorem fillErrors_length : ∀ (l : List ValidatedInput)
    (acc : List (Option BatchResult)) (k : Nat),
    (fillErrors acc k l).length = acc.length := by
  intro l
  induction l with
  | nil => intro acc k; rfl
  | cons e rest ih =>
    intro acc k
    show (fillErrors _ (k + 1) rest).length = _
    rw [ih]
    cases e.error <;> simp

theorem fillErrors_getElem?_lt : ∀ (l : List ValidatedInput)
    (acc : List (Option BatchResult)) (k i : Nat), i < k →
    (fillErrors acc k l)[i]? = acc[i]? := by
  intro l
  induction l with
  | nil => intro acc k i _; rfl
  | cons e rest ih =>
    intro acc k i hi
    show (fillErrors _ (k + 1) rest)[i]? = _
    rw [ih _ (k + 1) i (by omega)]
    cases e.error with
    | none => rfl
    | some err => exact List.getElem?_set_ne (by omega)

theorem fillErrors_cons (acc : List (Option BatchResult)) (k : Nat)
    (e : ValidatedInput) (rest : List ValidatedInput) :
    fillErrors acc k (e :: rest)
      = fillErrors
          (match e.error with
           | some err => acc.set k (some ⟨e.original, none, some err⟩)
           | none => acc)
          (k + 1) rest := rfl

theorem fillErrors_getElem?_at : ∀ (l : List ValidatedInput)
    (acc : List (Option BatchResult)) (k j : Nat) (e : ValidatedInput),
    l[j]? = some e → k + l.length ≤ acc.length →
    (fillErrors acc k l)[k + j]?
      = match e.error with
        | some err => some (some ⟨e.original, none, some err⟩)
        | none => acc[k + j]? := by
  intro l
  induction l with
  | nil => intro acc k j e hj _; exact absurd hj (by simp)
  | cons e0 rest ih =>
    intro acc k j e hj hlen
    have hlen' : k + (1 + rest.length) ≤ acc.length := by simp at hlen; omega
    rw [fillErrors_cons]
    cases j with
    | zero =>
      have hee : e = e0 := by
        have h' : some e0 = some e := by simpa using hj
        injection h' with h''
        exact h''.symm
      subst hee
      cases he : e.error with
      | none => exact fillErrors_getElem?_lt rest acc (k + 1) (k + 0) (by omega)
      | some err =>
        rw [fillErrors_getElem?_lt rest _ (k + 1) (k + 0) (by omega), Nat.add_zero]
        exact List.getElem?_set_self (by omega)
    | succ j' =>
      have hj' : rest[j']? = some e := by simpa using hj
      rw [show k + (j' + 1) = (k + 1) + j' by omega]
      cases he0 : e0.error with
      | none => exact ih acc (k + 1) j' e hj' (by omega)
      | some err0 =>
        rw [ih _ (k + 1) j' e hj' (by simp; omega)]
        cases he : e.error with
        | some err => rfl
        | none => exact List.getElem?_set_ne (by omega)

theorem foldl_writeItem_length
    (runItem : Nat → String → Except MostReplayedError (Option MostReplayedData)) :
    ∀ (items : List ValidItem) (acc : List (Option BatchResult)),
    (items.foldl (writeItem runItem) acc).length = acc.length := by
  intro items
  induction items with
  | nil => intro acc; rfl
  | cons it rest ih =>
    intro acc
    rw [List.foldl_cons, ih]
    simp [writeItem]

theorem writeFold_getElem?_lt
    (runItem : Nat → String → Except MostReplayedError (Option MostReplayedData)) :
    ∀ (l : List ValidatedInput) (k : Nat) (acc : List (Option BatchResult)) (i : Nat),
    i < k →
    ((collectValid k l).foldl (writeItem runItem) acc)[i]? = acc[i]? := by
  intro l
  induction l with
  | nil => intro k acc i _; rfl
  | cons e rest ih =>
    intro k acc i hi
    cases he : e.videoId with
    | some v =>
      simp only [collectValid, he, List.foldl_cons, writeItem]
      rw [ih (k + 1) _ i (by omega)]
      exact List.getElem?_set_ne (by omega)
    | none =>
      simp only [collectValid, he]
      exact ih (k + 1) acc i (by omega)

theorem writeFold_getElem?_at
    (runItem : Nat → String → Except MostReplayedError (Option MostReplayedData)) :
    ∀ (l : List ValidatedInput) (k : Nat) (acc : List (Option BatchResult))
      (j : Nat) (e : ValidatedInput),
    l[j]? = some e → k + l.length ≤ acc.length →
    ((collectValid k l).foldl (writeItem runItem) acc)[k + j]?
      = match e.videoId with
        | some v => some (some (runResult runItem ⟨e.original, v, k + j⟩))
        | none => acc[k + j]? := by
  intro l
  induction l with
  | nil => intro k acc j e hj _; exact absurd hj (by simp)
  | cons e0 rest ih =>
    intro k acc j e hj hlen
    have hlen' : k + (1 + rest.length) ≤ acc.length := by simp at hlen; omega
    cases j with
    | zero =>
      have hee : e = e0 := by
        have h' : some e0 = some e := by simpa using hj
        injection h' with h''
        exact h''.symm
      subst hee
      cases he : e.videoId with
      | some v =>
        simp only [collectValid, he, List.foldl_cons, writeItem]
        rw [writeFold_getElem?_lt runItem rest (k + 1) _ (k + 0) (by omega), Nat.add_zero]
        exact List.getElem?_set_self (by omega)
      | none =>
        simp only [collectValid, he]
        exact writeFold_getElem?_lt runItem rest (k + 1) acc (k + 0) (by omega)
    | succ j' =>
      have hj' : rest[j']? = some e := by simpa using hj
      rw [show k + (j' + 1) = (k + 1) + j' by omega]
      cases he0 : e0.videoId with
      | some v =>
        simp only [collectValid, he0, List.foldl_cons, writeItem]
        rw [ih (k + 1) _ j' e hj' (by simp; omega)]
        cases he : e.videoId with
        | some v' => rfl
        | none => exact List.getElem?_set_ne (by omega)
      | none =>
        simp only [collectValid, he0]
        exact ih (k + 1) acc j' e hj' (by omega)

theorem getMostReplayedBatch_eq_foldl (inputs : List String) (c : Nat)
    (runItem : Nat → String → Except MostReplayedError (Option MostReplayedData))
    (hc : c ≠ 0) :
    getMostReplayedBatch inputs c runItem
      = (collectValid 0 (inputs.map videoIdEntry)).foldl (writeItem runItem)
          (fillErrors (List.replicate inputs.length none) 0 (inputs.map videoIdEntry)) := by
  simp only [getMostReplayedBatch]
  rw [chunksOf, if_neg hc]
  have hmap : (fun (acc : List (Option BatchResult)) (chunk : List ValidItem) =>
      (chunk.map (fun it => (it.index, runResult runItem it))).foldl
        (fun a r => a.set r.1 (some r.2)) acc)
      = fun acc chunk => chunk.foldl (writeItem runItem) acc := by
    funext acc chunk
    rw [List.foldl_map]
    rfl
  rw [hmap]
  exact chunksOfGo_foldl c (writeItem runItem) _ _ _ (Nat.le_refl _) hc

theorem getMostReplayedBatch_length (inputs : List String) (c : Nat)
    (runItem : Nat → String → Except MostReplayedError (Option MostReplayedData))
    (hc : c ≠ 0) :
    (getMostReplayedBatch inputs c runItem).length = inputs.length := by
  rw [getMostReplayedBatch_eq_foldl inputs c runItem hc, foldl_writeItem_length,
    fillErrors_length, List.length_replicate]

theorem getMostReplayedBatch_getElem? (inputs : List String) (c : Nat)
    (runItem : Nat → String → Except MostReplayedError (Option MostReplayedData))
    (hc : c ≠ 0) (i : Nat) (hi : i < inputs.length) :
    (getMostReplayedBatch inputs c runItem)[i]?
      = some (some (expectedItemResult runItem i (inputs.get ⟨i, hi⟩))) := by
  rw [getMostReplayedBatch_eq_foldl inputs c runItem hc]
  have hmap : (inputs.map videoIdEntry)[i]? = some (videoIdEntry (inputs.get ⟨i, hi⟩)) := by
    rw [List.getElem?_map, List.getElem?_eq_getElem hi]
    simp [List.get_eq_getElem]
  have hlen1 : 0 + (inputs.map videoIdEntry).length
      ≤ (fillErrors (List.replicate inputs.length none) 0 (inputs.map videoIdEntry)).length := by
    rw [fillErrors_length, List.length_replicate, List.length_map]
    omega
  have hw := writeFold_getElem?_at runItem (inputs.map videoIdEntry) 0
    (fillErrors (List.replicate inputs.length none) 0 (inputs.map videoIdEntry))
    i (videoIdEntry (inputs.get ⟨i, hi⟩)) hmap hlen1
  rw [Nat.zero_add] at hw
  rw [hw]
  cases hx : extractVideoId (inputs.get ⟨i, hi⟩) with
  | ok v =>
    simp only [videoIdEntry, hx, expectedItemResult, runResult]
  | error e =>
    simp only [videoIdEntry, hx, expectedItemResult]
    have hf := fillErrors_getElem?_at (inputs.map videoIdEntry)
      (List.replicate inputs.length none) 0 i (videoIdEntry (inputs.get ⟨i, hi⟩)) hmap
      (by rw [List.length_replicate, List.length_map]; omega)
    rw [Nat.zero_add] at hf
    rw [hf]
    simp only [videoIdEntry, hx]

/-- C9: for every input collection, positive concurrency and per-item
pipeline outcome oracle, the batch returns a defined result for every slot
(never a hole, modelling "never throws"), with the same length and order as
the input; slot `i` is exactly the per-item reference result of input `i`
alone — a validation failure is captured in that item's error field without
consulting the oracle, a pipeline failure is captured in that item's error
field, and no sibling input influences it. -/
theorem c9_getMostReplayedBatch_isolation (inputs : List String) (c : Nat)
    (runItem : Nat → String → Except MostReplayedError (Option MostReplayedData))
    (hc : 0 < c) :
    (getMostReplayedBatch inputs c runItem).length = inputs.length
    ∧ ∀ i (hi : i < inputs.length),
        (getMostReplayedBatch inputs c runItem)[i]?
          = some (some (expectedItemResult runItem i (inputs.get ⟨i, hi⟩))) :=
  ⟨getMostReplayedBatch_length inputs c runItem (by omega),
   fun i hi => getMostReplayedBatch_getElem? inputs c runItem (by omega) i hi⟩

/-- C9 (witness): the theorem at a two-element batch with concurrency 1
whose second input fails validation; its slot carries the validation error
and the batch still has both slots defined in input order. -/
theorem c9_getMostReplayedBatch_isolation_witness :
    (0 : Nat) < 1
    ∧ (1 : Nat) < (["dQw4w9WgXcQ", "bogus"] : List String).length
    ∧ (getMostReplayedBatch ["dQw4w9WgXcQ", "bogus"] 1
        (fun _ _ => .ok none)).length = 2
    ∧ (getMostReplayedBatch ["dQw4w9WgXcQ", "bogus"] 1 (fun _ _ => .ok none))[1]?
        = some (some (expectedItemResult (fun _ _ => .ok none) 1 "bogus")) :=
  ⟨by decide, by decide,
   (c9_getMostReplayedBatch_isolation ["dQw4w9WgXcQ", "bogus"] 1
      (fun _ _ => .ok none) (by decide)).1,
   (c9_getMostReplayedBatch_isolation ["dQw4w9WgXcQ", "bogus"] 1
      (fun _ _ => .ok none) (by decide)).2 1 (by decide)⟩

/-- C2 (counterexample): for the valid URL input
`https://youtu.be/dQw4w9WgXcQ` the batch result's key is the extracted
11-character id `dQw4w9WgXcQ`, not the original input string supplied by
the caller, contradicting the claim that the key is always the caller's
original string. -/
theorem c2_key_cex :
    (getMostReplayedBatch ["https://youtu.be/dQw4w9WgXcQ"] 5
        (fun _ _ => .ok none))[0]?
      = some (some ⟨"dQw4w9WgXcQ", none, none⟩)
    ∧ "dQw4w9WgXcQ" ≠ "https://youtu.be/dQw4w9WgXcQ" :=
  ⟨rfl, by decide⟩

/-- C2 (amended): results are index-aligned with the input collection
regardless of completion order — slot `i` is a function of input `i` alone —
and the key carried by slot `i` is the original input string when
validation failed, but the extracted 11-character video id when validation
succeeded. -/
theorem c2_getMostReplayedBatch_key (inputs : List String) (c : Nat)
    (runItem : Nat → String → Except MostReplayedError (Option MostReplayedData))
    (hc : 0 < c) (i : Nat) (hi : i < inputs.length) :
    (getMostReplayedBatch inputs c runItem)[i]?
      = some (some (expectedItemResult runItem i (inputs.get ⟨i, hi⟩)))
    ∧ (expectedItemResult runItem i (inputs.get ⟨i, hi⟩)).videoId
      = keyOf (inputs.get ⟨i, hi⟩) := by
  refine ⟨getMostReplayedBatch_getElem? inputs c runItem (by omega) i hi, ?_⟩
  cases hx : extractVideoId (inputs.get ⟨i, hi⟩) with
  | ok v =>
    simp only [expectedItemResult, keyOf, hx]
    cases runItem i v <;> rfl
  | error e => simp only [expectedItemResult, keyOf, hx]

/-- C2 (witness): the amended theorem at the URL input, whose key is the
extracted id. -/
theorem c2_getMostReplayedBatch_key_witness :
    (0 : Nat) < 5
    ∧ ((getMostReplayedBatch ["https://youtu.be/dQw4w9WgXcQ"] 5
          (fun _ _ => .ok none))[0]?
        = some (some (expectedItemResult (fun _ _ => .ok none) 0
            "https://youtu.be/dQw4w9WgXcQ"))
      ∧ (expectedItemResult (fun _ _ => .ok none) 0
            "https://youtu.be/dQw4w9WgXcQ").videoId
        = keyOf "https://youtu.be/dQw4w9WgXcQ") :=
  ⟨by decide,
   c2_getMostReplayedBatch_key ["https://youtu.be/dQw4w9WgXcQ"] 5
     (fun _ _ => .ok none) (by decide) 0 (by decide)⟩

/-- C6 (witness): the theorem applied at `c6Data`, whose locator result is
the second mutation's markers list — the first qualifying one. -/
theorem c6_findMarkersListData_spec_witness :
    ∃ fu ebu ms, c6Data.frameworkUpdates = some fu
      ∧ fu.entityBatchUpdate = some ebu
      ∧ ebu.mutations = some (.arr ms)
      ∧ ∃ pre suf mu, ms = pre ++ mu :: suf
          ∧ mutationMarkersList mu = some c6Ml
          ∧ c6Ml.markersDecoration.isSome = true
          ∧ ∀ m ∈ pre, ¬qualifies m :=
  ((c6_findMarkersListData_spec c6Data).1 c6Ml).mp rfl

end YtMostReplayed

